import Mathlib

/-!
Verification of the borrow/return accounting core of the Smart Library
Management System (src/app.py and src/db.py).

Two backends are embedded:

* `db.py` — a SQL-backed ledger (`borrow_records`) and catalog (`books`),
  operated on by `borrow_book_db`, `return_book_db`, `update_book_copies`
  and `add_book`, each of which runs in one transaction.  Timestamps are
  modelled at day granularity as integers, matching the `.days` arithmetic
  used by the fine computation.
* `app.py` — the Streamlit flow: a `borrowed_records` table keyed by user
  name and title, plus a spreadsheet catalog (`data/*.xlsx`).  Spreadsheet
  rows are modelled as a flat list (files are scanned in order and rows in
  order, so the first matching row of the first matching file is the first
  matching row of the concatenation).  A `copies_available` cell is
  `Option Int`: `none` models a missing or non-numeric cell (both are
  coerced to NaN / a fresh default by `pd.to_numeric` and behave
  identically in every code path), `some n` a numeric cell.
-/

namespace SmartLib

/-! ## db.py data model -/

/-- A row of the `books` table (db.py `init_db`).  `price REAL` is kept at
integer granularity; no verified property touches it. -/
structure Book where
  book_id : Nat
  title : String
  author : String
  price : Int
  copies : Int
  deriving Repr, DecidableEq

/-- A row of the `borrow_records` table (db.py `init_db`). -/
structure BorrowRec where
  record_id : Nat
  user_id : Nat
  book_id : Nat
  borrow_date : Int
  return_date : Option Int
  fine : Int
  deriving Repr, DecidableEq

/-- The SQL store: both tables plus the AUTOINCREMENT counter for
`borrow_records.record_id` and `books.book_id`. -/
structure DBState where
  books : List Book
  records : List BorrowRec
  next_record_id : Nat
  next_book_id : Nat
  deriving Repr, DecidableEq

/-- `SELECT copies FROM books WHERE book_id=:book_id` + `fetchone()`:
the first row with the given id. -/
def findBookRow (s : DBState) (bid : Nat) : Option Book :=
  s.books.find? (fun b => b.book_id == bid)

/-- The catalog counter as seen through db.py: the stored `copies` of the
book, `0` when the id is unknown. -/
def dbGetAvailable (s : DBState) (bid : Nat) : Int :=
  match findBookRow s bid with
  | none => 0
  | some b => b.copies

/-- db.py `return_book_db` fine computation:
`fine = max(0, (days - 7))` where `days = (now - borrow_ts).days`. -/
def dbFine (days : Int) : Int := max 0 (days - 7)

/-- db.py `borrow_book_db`: inside one transaction, read the book's
copies; if the book is missing or `copies <= 0` return `False` with no
mutation; otherwise insert an open borrow record (`borrow_date` defaults
to the current timestamp, `return_date` NULL, `fine` 0) and run
`UPDATE books SET copies=copies-1 WHERE book_id=:book_id`. -/
def borrow_book_db (uid bid : Nat) (now : Int) (s : DBState) :
    Bool × DBState :=
  match findBookRow s bid with
  | none => (false, s)
  | some b =>
    if b.copies ≤ 0 then (false, s)
    else
      (true,
        { s with
          records := s.records ++
            [⟨s.next_record_id, uid, bid, now, none, 0⟩],
          next_record_id := s.next_record_id + 1,
          books := s.books.map (fun x =>
            if x.book_id == bid then { x with copies := x.copies - 1 }
            else x) })

/-- The filter of `return_book_db`'s SELECT:
`user_id=:uid AND book_id=:bid AND return_date IS NULL`. -/
def isOpenFor (uid bid : Nat) (r : BorrowRec) : Bool :=
  r.user_id == uid && r.book_id == bid && r.return_date == none

/-- Accumulator step realising `ORDER BY borrow_date DESC LIMIT 1`: keep
the record with the greatest `borrow_date` (the first such record in
table order when dates tie). -/
def pickLatest : Option BorrowRec → BorrowRec → Option BorrowRec
  | none, r => some r
  | some a, r => if a.borrow_date < r.borrow_date then some r else some a

/-- The single row fetched by `return_book_db`'s SELECT. -/
def latestOpen (recs : List BorrowRec) (uid bid : Nat) : Option BorrowRec :=
  (recs.filter (isOpenFor uid bid)).foldl pickLatest none

/-- db.py `return_book_db`: inside one transaction, fetch the open record
of the pair with the latest `borrow_date`; if none, return `None` with no
mutation; otherwise compute `fine = max(0, days - 7)`, set
`return_date=CURRENT_TIMESTAMP, fine=:fine` on that record, and run
`UPDATE books SET copies=copies+1 WHERE book_id=:bid`. -/
def return_book_db (uid bid : Nat) (now : Int) (s : DBState) :
    Option Int × DBState :=
  match latestOpen s.records uid bid with
  | none => (none, s)
  | some rec =>
    let fine := dbFine (now - rec.borrow_date)
    (some fine,
      { s with
        records := s.records.map (fun r =>
          if r.record_id == rec.record_id then
            { r with return_date := some now, fine := fine }
          else r),
        books := s.books.map (fun b =>
          if b.book_id == bid then { b with copies := b.copies + 1 }
          else b) })

/-- db.py `update_book_copies`: `UPDATE books SET copies=:copies WHERE
book_id=:book_id` — the new value is stored unvalidated. -/
def update_book_copies (bid : Nat) (new_copies : Int) (s : DBState) :
    DBState :=
  { s with
    books := s.books.map (fun b =>
      if b.book_id == bid then { b with copies := new_copies } else b) }

/-- db.py `add_book`: INSERT with an autoincremented id. -/
def add_book (title author : String) (price copies : Int) (s : DBState) :
    DBState :=
  { s with
    books := s.books ++ [⟨s.next_book_id, title, author, price, copies⟩],
    next_book_id := s.next_book_id + 1 }

/-- The state-changing db.py operations reachable from the application. -/
inductive DBOp where
  | borrow (uid bid : Nat) (now : Int)
  | ret (uid bid : Nat) (now : Int)
  | updateCopies (bid : Nat) (n : Int)
  | addBook (title author : String) (price copies : Int)
  deriving Repr, DecidableEq

def dbStep : DBOp → DBState → DBState
  | .borrow uid bid now, s => (borrow_book_db uid bid now s).2
  | .ret uid bid now, s => (return_book_db uid bid now s).2
  | .updateCopies bid n, s => update_book_copies bid n s
  | .addBook t a p c, s => add_book t a p c s

def dbRun (ops : List DBOp) (s : DBState) : DBState :=
  ops.foldl (fun st op => dbStep op st) s

/-- Well-formedness maintained by the AUTOINCREMENT primary key: record
ids are distinct and below the next id to be issued. -/
def DBWF (s : DBState) : Prop :=
  (s.records.map BorrowRec.record_id).Nodup ∧
    ∀ r ∈ s.records, r.record_id < s.next_record_id

/-! ## app.py data model -/

/-- Python `str.lower()` (pandas `.str.lower()`), at ASCII granularity:
lower-case every character. -/
def pyToLower (s : String) : String := String.mk (s.data.map Char.toLower)

/-- Python's notion of whitespace for `str.strip()` (the characters that
occur in practice in spreadsheet title cells). -/
def pyIsSpace (c : Char) : Bool :=
  c == ' ' || c == '\t' || c == '\n' || c == '\r'

/-- Python `str.strip()` (pandas `.str.strip()`): drop leading and
trailing whitespace. -/
def pyStrip (s : String) : String :=
  String.mk (((s.data.dropWhile pyIsSpace).reverse.dropWhile
    pyIsSpace).reverse)

/-- A row of app.py's `borrowed_records` table.  `save_record_to_db`
always stores a borrow date (defaulting to `datetime.now()`), so
`borrow_date` is total; `return_date` and `due` are nullable. -/
structure AppRec where
  id : Nat
  user : String
  title : String
  borrow_date : Int
  return_date : Option Int
  due : Option Int
  fine : Int
  deriving Repr, DecidableEq

/-- One spreadsheet row after the column normalisation of app.py:
`copies_cell = none` models a missing or non-numeric `copies_available`
cell, `some n` a numeric one. -/
structure SheetRow where
  title : String
  copies_cell : Option Int
  deriving Repr, DecidableEq

/-- The app.py store: the `borrowed_records` table, the concatenation of
all spreadsheet rows in `data/` (file order, then row order), and the
AUTOINCREMENT counter for record ids. -/
structure AppState where
  records : List AppRec
  catalog : List SheetRow
  next_id : Nat
  deriving Repr, DecidableEq

/-- `load_all_books` per-row count:
`pd.to_numeric(..., errors="coerce").fillna(1).astype(int).clip(lower=0)` —
a numeric cell is clipped at 0, a missing/non-numeric one becomes 1. -/
def viewCopies : Option Int → Int
  | none => 1
  | some n => max n 0

/-- `load_all_books`: strip each title, drop rows whose stripped title is
empty, and expose the clipped `copies_available` of the rest. -/
def load_all_books (catalog : List SheetRow) : List (String × Int) :=
  (catalog.filter (fun r => !((pyStrip r.title) == ""))).map
    (fun r => ((pyStrip r.title), viewCopies r.copies_cell))

/-- The titles offered by the borrow selectbox:
`books_df[books_df["copies_available"] > 0]["title"]`. -/
def availableTitles (catalog : List SheetRow) : List String :=
  ((load_all_books catalog).filter (fun p => decide (0 < p.2))).map
    Prod.fst

/-- The catalog counter as seen through app.py: the total
`copies_available` shown by `load_all_books` for the given title
(0 when the title is unknown). -/
def appGetAvailable (catalog : List SheetRow) (t : String) : Int :=
  (((load_all_books catalog).filter (fun p => p.1 == t)).map
    Prod.snd).sum

/-- `find_book_in_data_files`: scan rows in order and return the index of
the first whose raw (unstripped) title matches the query
case-insensitively. -/
def find_book_in_data_files (t : String) : List SheetRow → Option Nat
  | [] => none
  | r :: rs =>
    if pyToLower r.title == pyToLower t then some 0
    else (find_book_in_data_files t rs).map (fun n => n + 1)

/-- Borrow-side stock write (app.py lines 575–581): default a missing or
non-numeric current value to 1, then store `max(0, current - 1)`. -/
def borrowStockCell (c : Option Int) : Int :=
  max 0 ((match c with | some n => n | none => 1) - 1)

/-- Return-side stock write (app.py lines 647–652): default a missing or
non-numeric current value to 0, then store `current + 1`. -/
def returnStockCell (c : Option Int) : Int :=
  (match c with | some n => n | none => 0) + 1

/-- The Excel stock update of either flow: locate the first
case-insensitive raw-title match and overwrite its cell with the written
value; when no row matches, the catalog is left untouched (the flow's
`if df is not None and path is not None` guard). -/
def applyStockUpdate (f : Option Int → Int) (t : String)
    (catalog : List SheetRow) : List SheetRow :=
  match find_book_in_data_files t catalog with
  | none => catalog
  | some i =>
    match catalog[i]? with
    | none => catalog
    | some r => catalog.set i { r with copies_cell := some (f r.copies_cell) }

/-- app.py `GRACE_DAYS = 7`. -/
def GRACE_DAYS : Int := 7

/-- app.py `fine = late_days * 1  # ₹1 per day`. -/
def RATE_PER_DAY : Int := 1

/-- app.py return-flow fine: `late_days = max(0, total_days - GRACE_DAYS)`
then `fine = late_days * 1`. -/
def appFine (total_days : Int) : Int :=
  max 0 (total_days - GRACE_DAYS) * RATE_PER_DAY

/-- The duplicate-borrow check (app.py lines 550–554): an existing record
with the same user (case-insensitively), the same title (exactly), and no
return date. -/
def hasOpenDup (records : List AppRec) (user title : String) : Bool :=
  records.any (fun r =>
    pyToLower r.user == pyToLower user && r.title == title &&
      r.return_date == none)

/-- app.py `save_record_to_db` with an autoincremented id. -/
def save_record_to_db (user title : String) (borrow_date : Int)
    (return_date : Option Int) (due : Option Int) (fine : Int)
    (s : AppState) : AppState :=
  { s with
    records := s.records ++
      [⟨s.next_id, user, title, borrow_date, return_date, due, fine⟩],
    next_id := s.next_id + 1 }

/-- app.py `update_return_in_db`: set `return_date` and `fine` on the
record with the given id. -/
def update_return_in_db (record_id : Nat) (return_date : Int) (fine : Int)
    (s : AppState) : AppState :=
  { s with
    records := s.records.map (fun r =>
      if r.id == record_id then
        { r with return_date := some return_date, fine := fine }
      else r) }

/-- Outcome of a press of the Borrow Book button. `unavailable` models the
selectbox gate: only titles with a positive displayed count are offered,
so a title outside `availableTitles` cannot be borrowed. -/
inductive BorrowResult where
  | unavailable
  | alreadyBorrowed
  | ok
  deriving Repr, DecidableEq

/-- The Borrow Book flow (app.py lines 541–588): the selectbox offers only
available titles; the duplicate check rejects with no mutation; otherwise
the record is saved (`borrow_date = now`, `due = now + 7 days`,
`return_date` NULL, `fine` 0) and the Excel stock update is attempted. -/
def appBorrow (user title : String) (now : Int) (s : AppState) :
    BorrowResult × AppState :=
  if ¬ title ∈ availableTitles s.catalog then (.unavailable, s)
  else if hasOpenDup s.records user title then (.alreadyBorrowed, s)
  else
    let s1 := save_record_to_db user title now none (some (now + 7)) 0 s
    (.ok, { s1 with
            catalog := applyStockUpdate borrowStockCell title s1.catalog })

/-- The record the return flow operates on
(`user_borrows[user_borrows["title"] == return_choice].iloc[0]`): the
first record of the user (case-insensitively) that is unreturned and has
the chosen title. -/
def findOpenRecord (records : List AppRec) (user title : String) :
    Option AppRec :=
  records.find? (fun r =>
    pyToLower r.user == pyToLower user && r.return_date == none &&
      r.title == title)

/-- The Return Book flow (app.py lines 592–668): locate the user's open
record for the title (no record means nothing is offered to return),
compute the fine from the elapsed days, close the record via
`update_return_in_db`, and attempt the Excel stock increment. -/
def appReturn (user title : String) (now : Int) (s : AppState) :
    Option Int × AppState :=
  match findOpenRecord s.records user title with
  | none => (none, s)
  | some rec =>
    let fine := appFine (now - rec.borrow_date)
    let s1 := update_return_in_db rec.id now fine s
    (some fine,
      { s1 with
        catalog := applyStockUpdate returnStockCell title s1.catalog })

/-- The state-changing app.py operations. -/
inductive AppOp where
  | borrow (user title : String) (now : Int)
  | ret (user title : String) (now : Int)
  deriving Repr, DecidableEq

def appStep : AppOp → AppState → AppState
  | .borrow u t n, s => (appBorrow u t n s).2
  | .ret u t n, s => (appReturn u t n s).2

def appRun (ops : List AppOp) (s : AppState) : AppState :=
  ops.foldl (fun st op => appStep op st) s

/-- Well-formedness maintained by the AUTOINCREMENT primary key of
`borrowed_records`. -/
def AppWF (s : AppState) : Prop :=
  (s.records.map AppRec.id).Nodup ∧ ∀ r ∈ s.records, r.id < s.next_id

/-- Number of open records of a (borrower, title) pair, borrower compared
case-insensitively, title exactly. -/
def openPairCount (records : List AppRec) (user title : String) : Nat :=
  (records.filter (fun r =>
    pyToLower r.user == pyToLower user && r.title == title &&
      r.return_date == none)).length

/-- Number of open records of a (user_id, book_id) pair in the db.py
ledger. -/
def dbOpenPairCount (s : DBState) (uid bid : Nat) : Nat :=
  (s.records.filter (isOpenFor uid bid)).length

/-- The closed version of a db.py ledger record, as written by
`return_book_db`'s UPDATE. -/
def closeRec (rec : BorrowRec) (now fine : Int) : BorrowRec :=
  { rec with return_date := some now, fine := fine }

/-- The closed version of an app.py ledger record, as written by
`update_return_in_db`. -/
def closeAppRec (rec : AppRec) (now fine : Int) : AppRec :=
  { rec with return_date := some now, fine := fine }

/-- Helper characterisation (proved equal to `appGetAvailable` below): the
amount a single spreadsheet row adds to the displayed count of title
`t`. -/
def rowShare (t : String) (r : SheetRow) : Int :=
  if (pyStrip r.title) = t ∧ ¬ (pyStrip r.title) = "" then viewCopies r.copies_cell
  else 0

end SmartLib

namespace SmartLib

/-! ## Helper lemmas -/

theorem viewCopies_nonneg (c : Option Int) : 0 ≤ viewCopies c := by
  cases c with
  | none => simp [viewCopies]
  | some n => simp [viewCopies, le_max_right]

theorem rowShare_nonneg (t : String) (r : SheetRow) : 0 ≤ rowShare t r := by
  unfold rowShare
  split
  · exact viewCopies_nonneg _
  · exact le_refl 0

theorem appGetAvailable_cons (r : SheetRow) (rs : List SheetRow)
    (t : String) :
    appGetAvailable (r :: rs) t = rowShare t r + appGetAvailable rs t := by
  by_cases hemp : (pyStrip r.title) = ""
  · have h1 : (!((pyStrip r.title) == "")) = false := by simp [hemp]
    have h2 : rowShare t r = 0 := by simp [rowShare, hemp]
    simp [appGetAvailable, load_all_books, List.filter_cons, h1, h2]
  · have h1 : (!((pyStrip r.title) == "")) = true := by simp [hemp]
    by_cases hteq : (pyStrip r.title) = t
    · have ht : ¬ t = "" := hteq ▸ hemp
      have h2 : rowShare t r = viewCopies r.copies_cell := by
        simp [rowShare, hemp, hteq, ht]
      simp [appGetAvailable, load_all_books, List.filter_cons, h1, h2, hteq,
        ht]
    · have h2 : rowShare t r = 0 := by simp [rowShare, hteq]
      have h3 : (((pyStrip r.title), viewCopies r.copies_cell).1 == t) = false := by
        simp [hteq]
      simp [appGetAvailable, load_all_books, List.filter_cons, h1, h2, h3]

theorem appGetAvailable_eq_sum (catalog : List SheetRow) (t : String) :
    appGetAvailable catalog t = (catalog.map (rowShare t)).sum := by
  induction catalog with
  | nil => rfl
  | cons r rs ih =>
    rw [appGetAvailable_cons, ih, List.map_cons, List.sum_cons]

theorem sum_map_set {α : Type} (f : α → Int) :
    ∀ (l : List α) (i : Nat) (r r' : α), l[i]? = some r →
      ((l.set i r').map f).sum = (l.map f).sum - f r + f r' := by
  intro l
  induction l with
  | nil => intro i r r' h; simp at h
  | cons a as ih =>
    intro i r r' h
    cases i with
    | zero =>
      simp only [List.getElem?_cons_zero, Option.some.injEq] at h
      subst h
      simp only [List.set_cons_zero, List.map_cons, List.sum_cons]
      ring
    | succ n =>
      simp only [List.getElem?_cons_succ] at h
      have ih2 := ih n r r' h
      simp only [List.set_cons_succ, List.map_cons, List.sum_cons, ih2]
      ring

theorem find_book_spec (t : String) :
    ∀ (l : List SheetRow) (i : Nat), find_book_in_data_files t l = some i →
      ∃ r, l[i]? = some r ∧ pyToLower r.title = pyToLower t := by
  intro l
  induction l with
  | nil => intro i h; simp [find_book_in_data_files] at h
  | cons a as ih =>
    intro i h
    unfold find_book_in_data_files at h
    by_cases hm : pyToLower a.title == pyToLower t
    · rw [if_pos hm] at h
      cases h
      exact ⟨a, by simp, by simpa using hm⟩
    · rw [if_neg hm] at h
      cases hfind : find_book_in_data_files t as with
      | none => rw [hfind] at h; simp at h
      | some j =>
        rw [hfind] at h
        simp at h
        subst h
        obtain ⟨r, hr, hrt⟩ := ih j hfind
        exact ⟨r, by simpa using hr, hrt⟩

theorem sum_pos_of_mem (l : List Int) (hnn : ∀ x ∈ l, 0 ≤ x) (x : Int)
    (hx : x ∈ l) (hpos : 0 < x) : 0 < l.sum := by
  induction l with
  | nil => simp at hx
  | cons a as ih =>
    rw [List.sum_cons]
    rcases List.mem_cons.mp hx with h | h
    · subst h
      have : 0 ≤ as.sum :=
        List.sum_nonneg (fun y hy => hnn y (List.mem_cons_of_mem _ hy))
      omega
    · have ha : 0 ≤ a := hnn a (List.mem_cons_self _ _)
      have := ih (fun y hy => hnn y (List.mem_cons_of_mem _ hy)) h
      omega

theorem appGetAvailable_nonneg (catalog : List SheetRow) (t : String) :
    0 ≤ appGetAvailable catalog t := by
  rw [appGetAvailable_eq_sum]
  exact List.sum_nonneg (fun x hx => by
    obtain ⟨r, _, hr⟩ := List.mem_map.mp hx
    exact hr ▸ rowShare_nonneg t r)

theorem available_pos_of_mem (catalog : List SheetRow) (t : String)
    (h : t ∈ availableTitles catalog) : 0 < appGetAvailable catalog t := by
  obtain ⟨p, hp, hpt⟩ := List.mem_map.mp h
  have hpf := List.mem_filter.mp hp
  have hpos : 0 < p.2 := by
    have := hpf.2
    simpa using this
  obtain ⟨r, hr, hre⟩ := List.mem_map.mp hpf.1
  have hrf := List.mem_filter.mp hr
  have hemp : ¬ (pyStrip r.title) = "" := by
    have := hrf.2
    simpa using this
  rw [appGetAvailable_eq_sum]
  have hshare : rowShare t r = p.2 := by
    have h1 : (pyStrip r.title) = t := by rw [← hpt, ← hre]
    have ht : ¬ t = "" := h1 ▸ hemp
    simp [rowShare, h1, ht, ← hre]
  refine sum_pos_of_mem _ (fun x hx => ?_) (rowShare t r) ?_ ?_
  · obtain ⟨q, _, hq⟩ := List.mem_map.mp hx
    exact hq ▸ rowShare_nonneg t q
  · exact List.mem_map.mpr ⟨r, hrf.1, rfl⟩
  · rw [hshare]; exact hpos

theorem not_available_of_zero (catalog : List SheetRow) (t : String)
    (h : appGetAvailable catalog t = 0) : ¬ t ∈ availableTitles catalog := by
  intro hmem
  have := available_pos_of_mem catalog t hmem
  omega

theorem appBorrow_not_available (u t : String) (now : Int) (s : AppState)
    (h : ¬ t ∈ availableTitles s.catalog) :
    appBorrow u t now s = (.unavailable, s) := by
  simp [appBorrow, h]

theorem appBorrow_dup (u t : String) (now : Int) (s : AppState)
    (hav : t ∈ availableTitles s.catalog)
    (h : hasOpenDup s.records u t = true) :
    appBorrow u t now s = (.alreadyBorrowed, s) := by
  simp [appBorrow, hav, h]

theorem appBorrow_ok_effects (u t : String) (now : Int) (s : AppState)
    (h : (appBorrow u t now s).1 = .ok) :
    t ∈ availableTitles s.catalog ∧ hasOpenDup s.records u t = false ∧
      (appBorrow u t now s).2.records =
        s.records ++ [⟨s.next_id, u, t, now, none, some (now + 7), 0⟩] ∧
      (appBorrow u t now s).2.next_id = s.next_id + 1 ∧
      (appBorrow u t now s).2.catalog =
        applyStockUpdate borrowStockCell t s.catalog := by
  by_cases hav : t ∈ availableTitles s.catalog
  · by_cases hdup : hasOpenDup s.records u t
    · rw [appBorrow_dup u t now s hav hdup] at h
      simp at h
    · refine ⟨hav, by simpa using hdup, ?_, ?_, ?_⟩ <;>
        simp [appBorrow, hav, hdup, save_record_to_db]
  · rw [appBorrow_not_available u t now s hav] at h
    simp at h

theorem applyStockUpdate_of_find_none (f : Option Int → Int) (t : String)
    (catalog : List SheetRow) (h : find_book_in_data_files t catalog = none) :
    applyStockUpdate f t catalog = catalog := by
  simp [applyStockUpdate, h]

theorem applyStockUpdate_of_find_some (f : Option Int → Int) (t : String)
    (catalog : List SheetRow) (i : Nat) (r : SheetRow)
    (hf : find_book_in_data_files t catalog = some i)
    (hg : catalog[i]? = some r) :
    applyStockUpdate f t catalog =
      catalog.set i { r with copies_cell := some (f r.copies_cell) } := by
  simp [applyStockUpdate, hf, hg]

theorem borrowStockCell_nonneg (c : Option Int) : 0 ≤ borrowStockCell c :=
  le_max_left 0 _

theorem returnStockCell_pos (c : Option Int) (n : Int) (hc : c = some n) :
    returnStockCell c = n + 1 := by
  subst hc
  simp [returnStockCell]

theorem viewCopies_some_of_nonneg (x : Int) (hx : 0 ≤ x) :
    viewCopies (some x) = x := by
  simp [viewCopies, max_eq_left hx]

theorem borrowStockCell_eq (c : Option Int) (h : 0 < viewCopies c) :
    borrowStockCell c = viewCopies c - 1 := by
  cases c with
  | none => simp [borrowStockCell, viewCopies]
  | some n =>
    rcases le_or_lt n 0 with h1 | h1
    · rw [show viewCopies (some n) = 0 from by
        simp [viewCopies, max_eq_right h1]] at h
      omega
    · rw [viewCopies_some_of_nonneg n (le_of_lt h1)] at h ⊢
      simp only [borrowStockCell]
      rw [max_eq_right (by omega : (0 : Int) ≤ n - 1)]

/-- After the borrow-side stock write on a row whose raw title equals the
(trim-invariant, nonempty) queried title and whose displayed count is
positive, the displayed total for that title drops by exactly one. -/
theorem borrow_available_dec (t : String) (catalog : List SheetRow)
    (i : Nat) (r : SheetRow)
    (hf : find_book_in_data_files t catalog = some i)
    (hg : catalog[i]? = some r) (hrt : r.title = t) (htt : pyStrip t = t)
    (hte : ¬ t = "") (hpos : 0 < viewCopies r.copies_cell) :
    appGetAvailable (applyStockUpdate borrowStockCell t catalog) t =
      appGetAvailable catalog t - 1 := by
  rw [applyStockUpdate_of_find_some _ t catalog i r hf hg]
  rw [appGetAvailable_eq_sum, appGetAvailable_eq_sum]
  rw [sum_map_set (rowShare t) catalog i r _ hg]
  have htrim : (pyStrip r.title) = t := by rw [hrt, htt]
  have hshare : rowShare t r = viewCopies r.copies_cell := by
    simp [rowShare, htrim, hte]
  have hshare2 :
      rowShare t { r with copies_cell := some (borrowStockCell r.copies_cell) }
        = borrowStockCell r.copies_cell := by
    simp only [rowShare]
    rw [if_pos ⟨htrim, htrim ▸ hte⟩]
    exact viewCopies_some_of_nonneg _ (borrowStockCell_nonneg _)
  rw [hshare, hshare2, borrowStockCell_eq _ hpos]
  ring

/-- After the return-side stock write on such a row whose cell holds a
non-negative number, the displayed total for that title rises by exactly
one. -/
theorem return_available_inc (t : String) (catalog : List SheetRow)
    (i : Nat) (r : SheetRow) (n : Int)
    (hf : find_book_in_data_files t catalog = some i)
    (hg : catalog[i]? = some r) (hrt : r.title = t) (htt : pyStrip t = t)
    (hte : ¬ t = "") (hc : r.copies_cell = some n) (hn : 0 ≤ n) :
    appGetAvailable (applyStockUpdate returnStockCell t catalog) t =
      appGetAvailable catalog t + 1 := by
  rw [applyStockUpdate_of_find_some _ t catalog i r hf hg]
  rw [appGetAvailable_eq_sum, appGetAvailable_eq_sum]
  rw [sum_map_set (rowShare t) catalog i r _ hg]
  have htrim : (pyStrip r.title) = t := by rw [hrt, htt]
  have hshare : rowShare t r = n := by
    simp only [rowShare]
    rw [if_pos ⟨htrim, htrim ▸ hte⟩, hc]
    exact viewCopies_some_of_nonneg n hn
  have hshare2 :
      rowShare t { r with copies_cell := some (returnStockCell r.copies_cell) }
        = n + 1 := by
    simp only [rowShare]
    rw [if_pos ⟨htrim, htrim ▸ hte⟩]
    rw [returnStockCell_pos _ n hc]
    exact viewCopies_some_of_nonneg _ (by omega)
  rw [hshare, hshare2]
  ring

theorem findBookRow_spec (s : DBState) (bid : Nat) (b : Book)
    (h : findBookRow s bid = some b) : b ∈ s.books ∧ b.book_id = bid := by
  refine ⟨List.mem_of_find?_eq_some h, ?_⟩
  have := List.find?_some h
  simpa using this

theorem find?_books_map (g : Book → Book)
    (hg : ∀ x : Book, (g x).book_id = x.book_id) (bid : Nat) :
    ∀ l : List Book,
      (l.map g).find? (fun b => b.book_id == bid) =
        (l.find? (fun b => b.book_id == bid)).map g := by
  intro l
  induction l with
  | nil => rfl
  | cons a as ih =>
    have h2 : ((g a).book_id == bid) = (a.book_id == bid) := by rw [hg]
    cases hb : (a.book_id == bid) with
    | true => simp [List.find?_cons, h2, hb]
    | false => simp [List.find?_cons, h2, hb, ih]

theorem pickLatest_le (acc : Option BorrowRec) (x : BorrowRec) :
    ∃ m, pickLatest acc x = some m ∧ x.borrow_date ≤ m.borrow_date ∧
      ∀ a, acc = some a → a.borrow_date ≤ m.borrow_date := by
  cases acc with
  | none => exact ⟨x, rfl, le_refl _, fun a h => nomatch h⟩
  | some a =>
    by_cases hlt : a.borrow_date < x.borrow_date
    · refine ⟨x, by simp [pickLatest, hlt], le_refl _, ?_⟩
      intro b hb
      cases hb
      omega
    · refine ⟨a, by simp [pickLatest, hlt], by omega, ?_⟩
      intro b hb
      cases hb
      exact le_refl _

theorem foldl_pickLatest_spec :
    ∀ (l : List BorrowRec) (acc : Option BorrowRec) (r : BorrowRec),
      l.foldl pickLatest acc = some r →
      (r ∈ l ∨ acc = some r) ∧
        (∀ x ∈ l, x.borrow_date ≤ r.borrow_date) ∧
        (∀ a, acc = some a → a.borrow_date ≤ r.borrow_date) := by
  intro l
  induction l with
  | nil =>
    intro acc r h
    rw [List.foldl_nil] at h
    subst h
    refine ⟨Or.inr rfl, ?_, ?_⟩
    · intro x hx
      exact nomatch hx
    · intro a ha
      cases ha
      exact le_refl _
  | cons x xs ih =>
    intro acc r h
    rw [List.foldl_cons] at h
    obtain ⟨m, hm, hxm, ham⟩ := pickLatest_le acc x
    rw [hm] at h
    obtain ⟨hmem, hge, hacc⟩ := ih (some m) r h
    have hmr : m.borrow_date ≤ r.borrow_date := hacc m rfl
    refine ⟨?_, ?_, ?_⟩
    · cases hmem with
      | inl hin => exact Or.inl (List.mem_cons_of_mem _ hin)
      | inr he =>
        have : m = r := by cases he; rfl
        subst this
        -- m came from pickLatest acc x: either x itself or the accumulator
        cases acc with
        | none =>
          have : x = m := by
            simpa [pickLatest] using hm
          exact Or.inl (this ▸ List.mem_cons_self _ _)
        | some a =>
          by_cases hlt : a.borrow_date < x.borrow_date
          · have : x = m := by
              simpa [pickLatest, hlt] using hm
            exact Or.inl (this ▸ List.mem_cons_self _ _)
          · have : a = m := by
              simpa [pickLatest, hlt] using hm
            exact Or.inr (by rw [this])
    · intro y hy
      cases List.mem_cons.mp hy with
      | inl he => subst he; omega
      | inr hin => exact hge y hin
    · intro a ha
      have := ham a ha
      omega

theorem foldl_pickLatest_some_ne_none :
    ∀ (l : List BorrowRec) (m : BorrowRec),
      l.foldl pickLatest (some m) ≠ none := by
  intro l
  induction l with
  | nil => intro m h; exact nomatch h
  | cons x xs ih =>
    intro m h
    rw [List.foldl_cons] at h
    obtain ⟨m2, hm2, _, _⟩ := pickLatest_le (some m) x
    rw [hm2] at h
    exact ih m2 h

theorem latestOpen_spec (recs : List BorrowRec) (uid bid : Nat)
    (rec : BorrowRec) (h : latestOpen recs uid bid = some rec) :
    rec ∈ recs ∧ isOpenFor uid bid rec = true ∧
      ∀ x ∈ recs, isOpenFor uid bid x = true →
        x.borrow_date ≤ rec.borrow_date := by
  unfold latestOpen at h
  obtain ⟨hmem, hge, _⟩ := foldl_pickLatest_spec _ none rec h
  have hmem2 : rec ∈ recs.filter (isOpenFor uid bid) := by
    cases hmem with
    | inl hin => exact hin
    | inr he => exact nomatch he
  have := List.mem_filter.mp hmem2
  exact ⟨this.1, this.2, fun x hx hox =>
    hge x (List.mem_filter.mpr ⟨hx, hox⟩)⟩

theorem latestOpen_ne_none (recs : List BorrowRec) (uid bid : Nat)
    (x : BorrowRec) (hx : x ∈ recs) (hox : isOpenFor uid bid x = true) :
    latestOpen recs uid bid ≠ none := by
  unfold latestOpen
  have hxf : x ∈ recs.filter (isOpenFor uid bid) :=
    List.mem_filter.mpr ⟨hx, hox⟩
  obtain ⟨y, ys, hfl⟩ :=
    List.exists_cons_of_ne_nil (List.ne_nil_of_mem hxf)
  rw [hfl, List.foldl_cons]
  obtain ⟨m, hm, _, _⟩ := pickLatest_le none y
  rw [hm]
  exact foldl_pickLatest_some_ne_none ys m

theorem latestOpen_of_filter_nil (recs : List BorrowRec) (uid bid : Nat)
    (h : recs.filter (isOpenFor uid bid) = []) :
    latestOpen recs uid bid = none := by
  unfold latestOpen
  rw [h]
  rfl

theorem dbGetAvailable_of_no_book (s : DBState) (bid : Nat)
    (h : findBookRow s bid = none) : dbGetAvailable s bid = 0 := by
  unfold dbGetAvailable
  rw [h]

theorem borrow_book_db_of_no_book (uid bid : Nat) (now : Int) (s : DBState)
    (h : findBookRow s bid = none) :
    borrow_book_db uid bid now s = (false, s) := by
  simp [borrow_book_db, h]

theorem borrow_book_db_of_empty (uid bid : Nat) (now : Int) (s : DBState)
    (b : Book) (hb : findBookRow s bid = some b) (hc : b.copies ≤ 0) :
    borrow_book_db uid bid now s = (false, s) := by
  simp [borrow_book_db, hb, hc]

theorem borrow_book_db_of_pos (uid bid : Nat) (now : Int) (s : DBState)
    (b : Book) (hb : findBookRow s bid = some b) (hc : 0 < b.copies) :
    borrow_book_db uid bid now s =
      (true,
        { s with
          records := s.records ++
            [⟨s.next_record_id, uid, bid, now, none, 0⟩],
          next_record_id := s.next_record_id + 1,
          books := s.books.map (fun x =>
            if x.book_id == bid then { x with copies := x.copies - 1 }
            else x) }) := by
  simp [borrow_book_db, hb, show ¬ b.copies ≤ 0 by omega]

theorem borrow_book_db_fail_unchanged (uid bid : Nat) (now : Int)
    (s : DBState) (h : (borrow_book_db uid bid now s).1 = false) :
    (borrow_book_db uid bid now s).2 = s := by
  cases hfb : findBookRow s bid with
  | none => rw [borrow_book_db_of_no_book uid bid now s hfb]
  | some b =>
    by_cases hc : b.copies ≤ 0
    · rw [borrow_book_db_of_empty uid bid now s b hfb hc]
    · rw [borrow_book_db_of_pos uid bid now s b hfb (by omega)] at h
      exact nomatch h

theorem borrow_book_db_ok_book (uid bid : Nat) (now : Int) (s : DBState)
    (h : (borrow_book_db uid bid now s).1 = true) :
    ∃ b, findBookRow s bid = some b ∧ 0 < b.copies := by
  cases hfb : findBookRow s bid with
  | none =>
    rw [borrow_book_db_of_no_book uid bid now s hfb] at h
    exact nomatch h
  | some b =>
    by_cases hc : b.copies ≤ 0
    · rw [borrow_book_db_of_empty uid bid now s b hfb hc] at h
      exact nomatch h
    · exact ⟨b, rfl, by omega⟩

theorem dbGetAvailable_of_find (s : DBState) (bid : Nat) (b : Book)
    (hb : findBookRow s bid = some b) : dbGetAvailable s bid = b.copies := by
  unfold dbGetAvailable
  rw [hb]

theorem dbGetAvailable_books_map (s : DBState) (g : Book → Book)
    (hg : ∀ x, (g x).book_id = x.book_id) (bid : Nat) (b : Book)
    (hb : findBookRow s bid = some b) (recs : List BorrowRec)
    (n1 n2 : Nat) :
    dbGetAvailable ⟨s.books.map g, recs, n1, n2⟩ bid = (g b).copies := by
  unfold dbGetAvailable findBookRow
  simp only
  rw [find?_books_map g hg bid s.books]
  unfold findBookRow at hb
  rw [hb]
  simp

theorem borrow_book_db_ok_effects (uid bid : Nat) (now : Int) (s : DBState)
    (h : (borrow_book_db uid bid now s).1 = true) :
    (borrow_book_db uid bid now s).2.records =
        s.records ++ [⟨s.next_record_id, uid, bid, now, none, 0⟩] ∧
      (borrow_book_db uid bid now s).2.next_record_id =
        s.next_record_id + 1 ∧
      dbGetAvailable (borrow_book_db uid bid now s).2 bid =
        dbGetAvailable s bid - 1 := by
  obtain ⟨b, hb, hc⟩ := borrow_book_db_ok_book uid bid now s h
  rw [borrow_book_db_of_pos uid bid now s b hb hc]
  refine ⟨rfl, rfl, ?_⟩
  have hbid : b.book_id = bid := (findBookRow_spec s bid b hb).2
  have hg : ∀ x : Book,
      ((fun x : Book =>
        if x.book_id == bid then { x with copies := x.copies - 1 }
        else x) x).book_id = x.book_id := by
    intro x
    by_cases hx : (x.book_id == bid) = true <;> simp [hx]
  refine Eq.trans (dbGetAvailable_books_map s _ hg bid b hb _ _ _) ?_
  rw [dbGetAvailable_of_find s bid b hb]
  simp [hbid]

theorem return_book_db_of_none (uid bid : Nat) (now : Int) (s : DBState)
    (h : latestOpen s.records uid bid = none) :
    return_book_db uid bid now s = (none, s) := by
  simp [return_book_db, h]

theorem return_book_db_of_some (uid bid : Nat) (now : Int) (s : DBState)
    (rec : BorrowRec) (h : latestOpen s.records uid bid = some rec) :
    return_book_db uid bid now s =
      (some (dbFine (now - rec.borrow_date)),
        { s with
          records := s.records.map (fun r =>
            if r.record_id == rec.record_id then
              { r with return_date := some now,
                       fine := dbFine (now - rec.borrow_date) }
            else r),
          books := s.books.map (fun b =>
            if b.book_id == bid then { b with copies := b.copies + 1 }
            else b) }) := by
  simp [return_book_db, h]

theorem return_book_db_available_inc (uid bid : Nat) (now : Int)
    (s : DBState) (rec : BorrowRec)
    (h : latestOpen s.records uid bid = some rec) (b : Book)
    (hb : findBookRow s bid = some b) :
    dbGetAvailable (return_book_db uid bid now s).2 bid =
      dbGetAvailable s bid + 1 := by
  rw [return_book_db_of_some uid bid now s rec h]
  have hbid : b.book_id = bid := (findBookRow_spec s bid b hb).2
  have hg : ∀ x : Book,
      ((fun x : Book =>
        if x.book_id == bid then { x with copies := x.copies + 1 }
        else x) x).book_id = x.book_id := by
    intro x
    by_cases hx : (x.book_id == bid) = true <;> simp [hx]
  refine Eq.trans (dbGetAvailable_books_map s _ hg bid b hb _ _ _) ?_
  rw [dbGetAvailable_of_find s bid b hb]
  simp [hbid]

theorem appGetAvailable_of_unknown (catalog : List SheetRow) (t : String)
    (h : ¬ t ∈ (load_all_books catalog).map Prod.fst) :
    appGetAvailable catalog t = 0 := by
  unfold appGetAvailable
  have hfil : (load_all_books catalog).filter (fun p => p.1 == t) = [] := by
    rw [List.filter_eq_nil_iff]
    intro p hp hpt
    exact h (List.mem_map.mpr ⟨p, hp, by simpa using hpt⟩)
  rw [hfil]
  rfl

theorem borrow_books_nonneg (uid bid : Nat) (now : Int) (s : DBState)
    (hids : (s.books.map Book.book_id).Nodup)
    (hnn : ∀ b ∈ s.books, 0 ≤ b.copies) :
    ∀ b ∈ (borrow_book_db uid bid now s).2.books, 0 ≤ b.copies := by
  cases hres : (borrow_book_db uid bid now s).1 with
  | false =>
    rw [borrow_book_db_fail_unchanged uid bid now s hres]
    exact hnn
  | true =>
    obtain ⟨b, hb, hc⟩ := borrow_book_db_ok_book uid bid now s hres
    rw [borrow_book_db_of_pos uid bid now s b hb hc]
    intro b' hb'
    simp only [List.mem_map] at hb'
    obtain ⟨x, hx, rfl⟩ := hb'
    by_cases hxb : (x.book_id == bid) = true
    · have hxbid : x.book_id = bid := by simpa using hxb
      have hbbid : b.book_id = bid := (findBookRow_spec s bid b hb).2
      have hxeq : x = b :=
        List.inj_on_of_nodup_map hids hx (findBookRow_spec s bid b hb).1
          (by rw [hxbid, hbbid])
      subst hxeq
      simp only [hxb, if_pos]
      show 0 ≤ x.copies - 1
      omega
    · simp only [hxb]
      simp only [Bool.not_eq_true] at hxb
      simp [hxb]
      exact hnn x hx

theorem return_books_nonneg (uid bid : Nat) (now : Int) (s : DBState)
    (hnn : ∀ b ∈ s.books, 0 ≤ b.copies) :
    ∀ b ∈ (return_book_db uid bid now s).2.books, 0 ≤ b.copies := by
  cases hlo : latestOpen s.records uid bid with
  | none =>
    rw [return_book_db_of_none uid bid now s hlo]
    exact hnn
  | some rec =>
    rw [return_book_db_of_some uid bid now s rec hlo]
    intro b' hb'
    simp only [List.mem_map] at hb'
    obtain ⟨x, hx, rfl⟩ := hb'
    by_cases hxb : (x.book_id == bid) = true
    · simp only [hxb, if_pos]
      show 0 ≤ x.copies + 1
      have := hnn x hx
      omega
    · simp only [hxb]
      simp only [Bool.not_eq_true] at hxb
      simp [hxb]
      exact hnn x hx

theorem filter_length_map_le {α : Type} (g : α → α) (p : α → Bool) :
    ∀ l : List α, (∀ x ∈ l, p (g x) = true → p x = true) →
      ((l.map g).filter p).length ≤ (l.filter p).length := by
  intro l
  induction l with
  | nil => intro _; simp
  | cons a as ih =>
    intro h
    have hrest := ih (fun x hx => h x (List.mem_cons_of_mem _ hx))
    simp only [List.map_cons, List.filter_cons]
    cases hga : p (g a) with
    | true =>
      rw [h a (List.mem_cons_self _ _) hga]
      simpa using hrest
    | false =>
      cases hpa : p a with
      | true =>
        simp
        omega
      | false => exact hrest

theorem appBorrow_fail_unchanged (u t : String) (now : Int) (s : AppState)
    (h : (appBorrow u t now s).1 ≠ BorrowResult.ok) :
    (appBorrow u t now s).2 = s := by
  by_cases hav : t ∈ availableTitles s.catalog
  · by_cases hdup : hasOpenDup s.records u t
    · rw [appBorrow_dup u t now s hav hdup]
    · exfalso
      apply h
      simp [appBorrow, hav, hdup]
  · rw [appBorrow_not_available u t now s hav]

theorem appBorrow_open_count_one (u t : String) (now : Int) (s : AppState)
    (h : (appBorrow u t now s).1 = BorrowResult.ok) :
    openPairCount (appBorrow u t now s).2.records u t = 1 := by
  obtain ⟨_, hdup, hrecs, _, _⟩ := appBorrow_ok_effects u t now s h
  rw [hrecs]
  unfold openPairCount
  rw [List.filter_append]
  have h1 : s.records.filter (fun r =>
      pyToLower r.user == pyToLower u && r.title == t &&
        r.return_date == none) = [] := by
    rw [List.filter_eq_nil_iff]
    intro a ha hpa
    have : hasOpenDup s.records u t = true :=
      List.any_eq_true.mpr ⟨a, ha, hpa⟩
    rw [hdup] at this
    exact nomatch this
  rw [h1]
  simp

/-! ## Claims -/

/-- C3: for every title with `get_available(title) == 0`, a borrow of that
title fails (with the `Unavailable` signal of its backend: `False` from
`borrow_book_db`, not being offered by the borrow selectbox in the app
flow) and leaves both the loan ledger and the catalog counter
unchanged. -/
theorem C3_confirmed :
    (∀ (uid bid : Nat) (now : Int) (s : DBState),
      dbGetAvailable s bid = 0 →
        borrow_book_db uid bid now s = (false, s)) ∧
    (∀ (u t : String) (now : Int) (s : AppState),
      appGetAvailable s.catalog t = 0 →
        appBorrow u t now s = (BorrowResult.unavailable, s)) := by
  constructor
  · intro uid bid now s h
    cases hfb : findBookRow s bid with
    | none => exact borrow_book_db_of_no_book uid bid now s hfb
    | some b =>
      have hcb : b.copies = 0 := by
        rw [dbGetAvailable_of_find s bid b hfb] at h
        exact h
      exact borrow_book_db_of_empty uid bid now s b hfb (by omega)
  · intro u t now s h
    exact appBorrow_not_available u t now s
      (not_available_of_zero s.catalog t h)

/-- C3 witness: a concrete application of both parts. -/
theorem C3_witness :
    borrow_book_db 3 9 0 ⟨[⟨9, "B", "a", 0, 0⟩], [], 0, 10⟩ =
        (false, ⟨[⟨9, "B", "a", 0, 0⟩], [], 0, 10⟩) ∧
      appBorrow "u" "T" 0 ⟨[], [], 0⟩ =
        (BorrowResult.unavailable, ⟨[], [], 0⟩) :=
  ⟨C3_confirmed.1 3 9 0 ⟨[⟨9, "B", "a", 0, 0⟩], [], 0, 10⟩ (by decide),
   C3_confirmed.2 "u" "T" 0 ⟨[], [], 0⟩ (by decide)⟩

/-- C4: for every open loan returned after `d` whole days the fine is
`max(0, d - GRACE_DAYS) * RATE_PER_DAY` with `GRACE_DAYS = 7` and
`RATE_PER_DAY = 1` (the fixed constant of this code base), in both the
app flow (`appFine`) and the SQL backend (`dbFine`); in particular day 7
yields 0, day 8 yields 1×RATE, day 14 yields 7×RATE; and the return
operations deliver exactly this fine. -/
theorem C4_confirmed :
    (∀ d : Int, appFine d = max 0 (d - GRACE_DAYS) * RATE_PER_DAY) ∧
    (∀ d : Int, dbFine d = max 0 (d - GRACE_DAYS) * RATE_PER_DAY) ∧
    (appFine 7 = 0 ∧ appFine 8 = RATE_PER_DAY ∧
      appFine 14 = 7 * RATE_PER_DAY ∧ dbFine 7 = 0 ∧
      dbFine 8 = RATE_PER_DAY ∧ dbFine 14 = 7 * RATE_PER_DAY) ∧
    (∀ (u t : String) (now : Int) (s : AppState) (rec : AppRec),
      findOpenRecord s.records u t = some rec →
        (appReturn u t now s).1 = some (appFine (now - rec.borrow_date))) ∧
    (∀ (uid bid : Nat) (now : Int) (s : DBState) (rec : BorrowRec),
      latestOpen s.records uid bid = some rec →
        (return_book_db uid bid now s).1 =
          some (dbFine (now - rec.borrow_date))) := by
  refine ⟨fun d => rfl, fun d => by simp [dbFine, GRACE_DAYS, RATE_PER_DAY],
    by norm_num [appFine, dbFine, GRACE_DAYS, RATE_PER_DAY], ?_, ?_⟩
  · intro u t now s rec h
    simp [appReturn, h]
  · intro uid bid now s rec h
    rw [return_book_db_of_some uid bid now s rec h]

/-- C4 witness: a 14-day loan is charged ₹7 by the app return flow. -/
theorem C4_witness :
    (appReturn "alice" "X" 14
        ⟨[⟨0, "alice", "X", 0, none, some 7, 0⟩], [], 1⟩).1 =
      some (appFine (14 - 0)) :=
  C4_confirmed.2.2.2.1 "alice" "X" 14
    ⟨[⟨0, "alice", "X", 0, none, some 7, 0⟩], [], 1⟩
    ⟨0, "alice", "X", 0, none, some 7, 0⟩ (by decide)

/-- C7 counterexample: the claim says no operation, including admin copy
updates, ever drives the counter below zero; but `update_book_copies`
stores its argument unvalidated, so an admin update with `-1` yields a
negative stored count. -/
theorem C7_counterexample :
    dbGetAvailable
      (update_book_copies 1 (-1) ⟨[⟨1, "B", "a", 0, 3⟩], [], 0, 2⟩) 1 <
      0 := by decide

/-- C7 amended: the spreadsheet-path counter `appGetAvailable` is always
non-negative (and 0 for an unknown title), and the borrow/return
operations of the SQL backend preserve non-negativity of every stored
count; but `update_book_copies` stores an arbitrary value, so admin
updates are excluded. -/
theorem C7_amended :
    (∀ (catalog : List SheetRow) (t : String),
      0 ≤ appGetAvailable catalog t) ∧
    (∀ (catalog : List SheetRow) (t : String),
      ¬ t ∈ (load_all_books catalog).map Prod.fst →
        appGetAvailable catalog t = 0) ∧
    (∀ (uid bid : Nat) (now : Int) (s : DBState),
      (s.books.map Book.book_id).Nodup →
      (∀ b ∈ s.books, 0 ≤ b.copies) →
        ∀ b ∈ (borrow_book_db uid bid now s).2.books, 0 ≤ b.copies) ∧
    (∀ (uid bid : Nat) (now : Int) (s : DBState),
      (∀ b ∈ s.books, 0 ≤ b.copies) →
        ∀ b ∈ (return_book_db uid bid now s).2.books, 0 ≤ b.copies) :=
  ⟨appGetAvailable_nonneg, appGetAvailable_of_unknown,
    borrow_books_nonneg, return_books_nonneg⟩

/-- C7 witness: the borrow-preservation part applied to a concrete
store. -/
theorem C7_witness :
    ∀ b ∈ (borrow_book_db 2 1 0
      ⟨[⟨1, "B", "a", 0, 1⟩], [], 0, 2⟩).2.books, 0 ≤ b.copies :=
  C7_amended.2.2.1 2 1 0 ⟨[⟨1, "B", "a", 0, 1⟩], [], 0, 2⟩
    (by decide) (by decide)

/-- C10: in the spreadsheet-backed catalog path a missing or non-numeric
`copies_available` cell is defaulted asymmetrically — a borrow treats it
as 1 and stores 0, a return treats it as 0 and stores 1 — so a borrow of
such a row always succeeds in writing the stock, and borrow-then-return
leaves the stored count at 1. -/
theorem C10_confirmed :
    borrowStockCell none = 0 ∧ returnStockCell none = 1 ∧
      returnStockCell (some (borrowStockCell none)) = 1 ∧
      (appBorrow "u" "B" 0 ⟨[], [⟨"B", none⟩], 0⟩).1 = BorrowResult.ok ∧
      (appBorrow "u" "B" 0 ⟨[], [⟨"B", none⟩], 0⟩).2.catalog =
        [⟨"B", some 0⟩] ∧
      (appReturn "u" "B" 0
          (appBorrow "u" "B" 0 ⟨[], [⟨"B", none⟩], 0⟩).2).2.catalog =
        [⟨"B", some 1⟩] := by decide

/-- C1 counterexample: a reachable post-state in which a loan record was
created but the available-copies counter was not decremented.  The data
file stores the raw title `" Dune"`; `load_all_books` strips it, so the
title `"Dune"` is offered with count 1 and the borrow succeeds, but
`find_book_in_data_files` compares the raw title case-insensitively
without stripping, finds no row, and leaves the catalog untouched. -/
theorem C1_counterexample :
    (appBorrow "alice" "Dune" 0 ⟨[], [⟨" Dune", some 1⟩], 0⟩).1 =
        BorrowResult.ok ∧
      (appBorrow "alice" "Dune" 0 ⟨[], [⟨" Dune", some 1⟩], 0⟩).2.records =
        [⟨0, "alice", "Dune", 0, none, some 7, 0⟩] ∧
      (appBorrow "alice" "Dune" 0 ⟨[], [⟨" Dune", some 1⟩], 0⟩).2.catalog =
        [⟨" Dune", some 1⟩] ∧
      appGetAvailable
          (appBorrow "alice" "Dune" 0
            ⟨[], [⟨" Dune", some 1⟩], 0⟩).2.catalog "Dune" =
        appGetAvailable [⟨" Dune", some 1⟩] "Dune" := by decide

/-- C2 counterexample: `borrow_book_db` performs no duplicate check, so
with an open loan of the pair (user 7, book 1) already in the ledger a
second borrow succeeds and leaves two open loans for the pair, instead of
failing with `AlreadyBorrowed` and mutating nothing. -/
theorem C2_counterexample :
    (borrow_book_db 7 1 5
        ⟨[⟨1, "B", "a", 0, 2⟩], [⟨0, 7, 1, 0, none, 0⟩], 1, 2⟩).1 =
        true ∧
      dbOpenPairCount
        (borrow_book_db 7 1 5
          ⟨[⟨1, "B", "a", 0, 2⟩], [⟨0, 7, 1, 0, none, 0⟩], 1, 2⟩).2 7 1 =
        2 := by decide

/-- C5 counterexample: a successful borrow after which `get_available`
does not decrease.  The raw spreadsheet title `" Tuck"` strips to the
offered title `"Tuck"` (count 3); the borrow succeeds and appends the
loan record, but the raw-title lookup of the stock update misses, so the
displayed count stays 3 instead of dropping to 2. -/
theorem C5_counterexample :
    (appBorrow "bob" "Tuck" 2 ⟨[], [⟨" Tuck", some 3⟩], 5⟩).1 =
        BorrowResult.ok ∧
      openPairCount
          (appBorrow "bob" "Tuck" 2 ⟨[], [⟨" Tuck", some 3⟩], 5⟩).2.records
          "bob" "Tuck" = 1 ∧
      appGetAvailable [⟨" Tuck", some 3⟩] "Tuck" = 3 ∧
      appGetAvailable
          (appBorrow "bob" "Tuck" 2
            ⟨[], [⟨" Tuck", some 3⟩], 5⟩).2.catalog "Tuck" = 3 := by decide

/-- C6 counterexample: a successful return after which `get_available`
does not increase.  The open loan of ("carol", "Emma") is closed with the
correct fine (2 days late → ₹2) but the data file stores the raw title
`"Emma "`, which the raw-title lookup of the stock update misses, so the
displayed count stays 2 instead of rising to 3. -/
theorem C6_counterexample :
    (appReturn "carol" "Emma" 9
        ⟨[⟨4, "carol", "Emma", 0, none, some 7, 0⟩],
          [⟨"Emma ", some 2⟩], 5⟩).1 = some 2 ∧
      (appReturn "carol" "Emma" 9
          ⟨[⟨4, "carol", "Emma", 0, none, some 7, 0⟩],
            [⟨"Emma ", some 2⟩], 5⟩).2.records =
        [⟨4, "carol", "Emma", 0, some 9, some 7, 2⟩] ∧
      appGetAvailable [⟨"Emma ", some 2⟩] "Emma" = 2 ∧
      appGetAvailable
          (appReturn "carol" "Emma" 9
            ⟨[⟨4, "carol", "Emma", 0, none, some 7, 0⟩],
              [⟨"Emma ", some 2⟩], 5⟩).2.catalog "Emma" = 2 := by decide

theorem appBorrow_exact_effects (u t : String) (now : Int) (s : AppState)
    (i : Nat) (r : SheetRow)
    (hok : (appBorrow u t now s).1 = BorrowResult.ok)
    (hf : find_book_in_data_files t s.catalog = some i)
    (hg : s.catalog[i]? = some r) (hrt : r.title = t)
    (htt : pyStrip t = t) (hte : ¬ t = "")
    (hpos : 0 < viewCopies r.copies_cell) :
    (appBorrow u t now s).2.records =
        s.records ++ [⟨s.next_id, u, t, now, none, some (now + 7), 0⟩] ∧
      appGetAvailable (appBorrow u t now s).2.catalog t =
        appGetAvailable s.catalog t - 1 := by
  obtain ⟨_, _, hrecs, _, hcat⟩ := appBorrow_ok_effects u t now s hok
  refine ⟨hrecs, ?_⟩
  rw [hcat]
  exact borrow_available_dec t s.catalog i r hf hg hrt htt hte hpos

/-- C5 amended: after a successful `borrow(b, t, now)` the record is
appended with borrow_timestamp `now`, due_timestamp `now + 7` days, no
return_timestamp and fine 0, and exactly one open loan exists for the
pair; `get_available(t)` decreases by exactly 1 provided the stock lookup
hits the row: the queried title equals the raw stored title (so the raw
title carries no surrounding whitespace) and the row's displayed count is
positive.  (The counterexample shows the decrement is lost when the raw
title differs from the offered, stripped title.) -/
theorem C5_amended (u t : String) (now : Int) (s : AppState) (i : Nat)
    (r : SheetRow) (hok : (appBorrow u t now s).1 = BorrowResult.ok)
    (hf : find_book_in_data_files t s.catalog = some i)
    (hg : s.catalog[i]? = some r) (hrt : r.title = t)
    (htt : pyStrip t = t) (hte : ¬ t = "")
    (hpos : 0 < viewCopies r.copies_cell) :
    (appBorrow u t now s).2.records =
        s.records ++ [⟨s.next_id, u, t, now, none, some (now + 7), 0⟩] ∧
      appGetAvailable (appBorrow u t now s).2.catalog t =
        appGetAvailable s.catalog t - 1 ∧
      openPairCount (appBorrow u t now s).2.records u t = 1 := by
  obtain ⟨h1, h2⟩ :=
    appBorrow_exact_effects u t now s i r hok hf hg hrt htt hte hpos
  exact ⟨h1, h2, appBorrow_open_count_one u t now s hok⟩

/-- C5 witness: a concrete successful borrow with exact title match. -/
theorem C5_witness :
    (appBorrow "alice" "Dune" 0 ⟨[], [⟨"Dune", some 2⟩], 0⟩).2.records =
        [] ++ [⟨0, "alice", "Dune", 0, none, some 7, 0⟩] ∧
      appGetAvailable
          (appBorrow "alice" "Dune" 0
            ⟨[], [⟨"Dune", some 2⟩], 0⟩).2.catalog "Dune" =
        appGetAvailable [⟨"Dune", some 2⟩] "Dune" - 1 ∧
      openPairCount
          (appBorrow "alice" "Dune" 0
            ⟨[], [⟨"Dune", some 2⟩], 0⟩).2.records "alice" "Dune" = 1 :=
  C5_amended "alice" "Dune" 0 ⟨[], [⟨"Dune", some 2⟩], 0⟩ 0
    ⟨"Dune", some 2⟩ (by decide) (by decide) (by decide) (by decide)
    (by decide) (by decide) (by decide)

/-- C1 amended: ledger and catalog commit together in the SQL backend
(`borrow_book_db` and `return_book_db` run in one transaction: on failure
nothing changes, on success the record and the counter change together);
in the spreadsheet flow the loan record and the counter update commit
together only when the stock lookup hits the row exactly (raw title equal
to the queried title and positive displayed count) — otherwise the loan
is recorded with no counter change, as the counterexample shows. -/
theorem C1_amended :
    (∀ (uid bid : Nat) (now : Int) (s : DBState),
      (borrow_book_db uid bid now s).1 = false →
        (borrow_book_db uid bid now s).2 = s) ∧
    (∀ (uid bid : Nat) (now : Int) (s : DBState),
      (borrow_book_db uid bid now s).1 = true →
        (borrow_book_db uid bid now s).2.records =
            s.records ++ [⟨s.next_record_id, uid, bid, now, none, 0⟩] ∧
          dbGetAvailable (borrow_book_db uid bid now s).2 bid =
            dbGetAvailable s bid - 1) ∧
    (∀ (uid bid : Nat) (now : Int) (s : DBState),
      (return_book_db uid bid now s).1 = none →
        (return_book_db uid bid now s).2 = s) ∧
    (∀ (uid bid : Nat) (now : Int) (s : DBState) (rec : BorrowRec)
        (b : Book),
      latestOpen s.records uid bid = some rec →
      findBookRow s bid = some b →
        closeRec rec now (dbFine (now - rec.borrow_date)) ∈
            (return_book_db uid bid now s).2.records ∧
          dbGetAvailable (return_book_db uid bid now s).2 bid =
            dbGetAvailable s bid + 1) ∧
    (∀ (u t : String) (now : Int) (s : AppState) (i : Nat) (r : SheetRow),
      (appBorrow u t now s).1 = BorrowResult.ok →
      find_book_in_data_files t s.catalog = some i →
      s.catalog[i]? = some r → r.title = t → pyStrip t = t → ¬ t = "" →
      0 < viewCopies r.copies_cell →
        (appBorrow u t now s).2.records =
            s.records ++
              [⟨s.next_id, u, t, now, none, some (now + 7), 0⟩] ∧
          appGetAvailable (appBorrow u t now s).2.catalog t =
            appGetAvailable s.catalog t - 1) := by
  refine ⟨borrow_book_db_fail_unchanged, ?_, ?_, ?_, ?_⟩
  · intro uid bid now s h
    obtain ⟨h1, _, h3⟩ := borrow_book_db_ok_effects uid bid now s h
    exact ⟨h1, h3⟩
  · intro uid bid now s h
    cases hlo : latestOpen s.records uid bid with
    | none => rw [return_book_db_of_none uid bid now s hlo]
    | some rec =>
      rw [return_book_db_of_some uid bid now s rec hlo] at h
      exact nomatch h
  · intro uid bid now s rec b hlo hb
    refine ⟨?_, return_book_db_available_inc uid bid now s rec hlo b hb⟩
    rw [return_book_db_of_some uid bid now s rec hlo]
    have hmem : rec ∈ s.records := (latestOpen_spec _ _ _ _ hlo).1
    refine List.mem_map.mpr ⟨rec, hmem, ?_⟩
    simp [closeRec]
  · intro u t now s i r hok hf hg hrt htt hte hpos
    exact appBorrow_exact_effects u t now s i r hok hf hg hrt htt hte hpos

/-- C1 witness: a concrete successful SQL borrow commits record and
counter together. -/
theorem C1_witness :
    (borrow_book_db 1 1 0 ⟨[⟨1, "B", "a", 0, 2⟩], [], 0, 2⟩).2.records =
        [] ++ [⟨0, 1, 1, 0, none, 0⟩] ∧
      dbGetAvailable
          (borrow_book_db 1 1 0 ⟨[⟨1, "B", "a", 0, 2⟩], [], 0, 2⟩).2 1 =
        dbGetAvailable ⟨[⟨1, "B", "a", 0, 2⟩], [], 0, 2⟩ 1 - 1 :=
  C1_amended.2.1 1 1 0 ⟨[⟨1, "B", "a", 0, 2⟩], [], 0, 2⟩ (by decide)

/-- C2 amended: in the app flow a second borrow of a still-open
(borrower, title) pair — borrower compared case-insensitively, title
exactly — fails with `AlreadyBorrowed` and mutates nothing (provided the
title is still offered; with zero displayed copies the selectbox refuses
it instead), any failing borrow mutates nothing, and every app operation
preserves the at-most-one-open-loan-per-pair invariant.  `borrow_book_db`
performs no duplicate check (see the counterexample), so the invariant
holds only in the app flow. -/
theorem C2_amended :
    (∀ (u t : String) (now : Int) (s : AppState),
      t ∈ availableTitles s.catalog → hasOpenDup s.records u t = true →
        appBorrow u t now s = (BorrowResult.alreadyBorrowed, s)) ∧
    (∀ (u t : String) (now : Int) (s : AppState),
      (appBorrow u t now s).1 ≠ BorrowResult.ok →
        (appBorrow u t now s).2 = s) ∧
    (∀ (op : AppOp) (s : AppState) (u t : String),
      openPairCount s.records u t ≤ 1 →
        openPairCount (appStep op s).records u t ≤ 1) := by
  refine ⟨appBorrow_dup, appBorrow_fail_unchanged, ?_⟩
  intro op s u t hinv
  cases op with
  | borrow u2 t2 n2 =>
    show openPairCount (appBorrow u2 t2 n2 s).2.records u t ≤ 1
    by_cases hok : (appBorrow u2 t2 n2 s).1 = BorrowResult.ok
    · obtain ⟨_, hdup, hrecs, _, _⟩ := appBorrow_ok_effects u2 t2 n2 s hok
      rw [hrecs]
      unfold openPairCount
      rw [List.filter_append]
      by_cases hnew : (pyToLower u2 == pyToLower u && (t2 == t) &&
          ((none : Option Int) == none)) = true
      · have ht2 : t2 = t := by
          have := hnew
          simp only [Bool.and_eq_true, beq_iff_eq] at this
          exact this.1.2
        have hu2 : pyToLower u2 = pyToLower u := by
          have := hnew
          simp only [Bool.and_eq_true, beq_iff_eq] at this
          exact this.1.1
        have h1 : s.records.filter (fun r =>
            pyToLower r.user == pyToLower u && r.title == t &&
              r.return_date == none) = [] := by
          rw [List.filter_eq_nil_iff]
          intro a ha hpa
          have hpa2 : (pyToLower a.user == pyToLower u2 &&
              a.title == t2 && a.return_date == none) = true := by
            rw [hu2, ht2]
            exact hpa
          have : hasOpenDup s.records u2 t2 = true :=
            List.any_eq_true.mpr ⟨a, ha, hpa2⟩
          rw [hdup] at this
          exact nomatch this
        subst ht2
        rw [h1]
        simp [hu2]
      · have h2 : (List.filter (fun r : AppRec =>
            pyToLower r.user == pyToLower u && r.title == t &&
              r.return_date == none)
            [⟨s.next_id, u2, t2, n2, none, some (n2 + 7), 0⟩]) = [] := by
          rw [List.filter_eq_nil_iff]
          intro a ha hpa
          have : a = (⟨s.next_id, u2, t2, n2, none, some (n2 + 7), 0⟩ :
              AppRec) := by simpa using ha
          subst this
          exact hnew hpa
        rw [h2]
        simpa using hinv
    · rw [appBorrow_fail_unchanged u2 t2 n2 s hok]
      exact hinv
  | ret u2 t2 n2 =>
    show openPairCount (appReturn u2 t2 n2 s).2.records u t ≤ 1
    cases hfo : findOpenRecord s.records u2 t2 with
    | none =>
      have : appReturn u2 t2 n2 s = (none, s) := by
        simp [appReturn, hfo]
      rw [this]
      exact hinv
    | some rec =>
      have hrecs : (appReturn u2 t2 n2 s).2.records =
          s.records.map (fun r =>
            if r.id == rec.id then
              { r with return_date := some n2,
                       fine := appFine (n2 - rec.borrow_date) }
            else r) := by
        simp [appReturn, hfo, update_return_in_db]
      rw [hrecs]
      unfold openPairCount at hinv ⊢
      refine le_trans (filter_length_map_le _ _ s.records ?_) hinv
      intro x _ hpx
      by_cases hid : (x.id == rec.id) = true
      · rw [if_pos hid] at hpx
        simp at hpx
      · rw [if_neg hid] at hpx
        exact hpx

theorem findOpenRecord_spec (records : List AppRec) (u t : String)
    (rec : AppRec) (h : findOpenRecord records u t = some rec) :
    rec ∈ records ∧ rec.return_date = none ∧ rec.title = t := by
  refine ⟨List.mem_of_find?_eq_some h, ?_, ?_⟩
  · have hp := List.find?_some h
    simp only [Bool.and_eq_true, beq_iff_eq] at hp
    exact hp.1.2
  · have hp := List.find?_some h
    simp only [Bool.and_eq_true, beq_iff_eq] at hp
    exact hp.2

theorem appReturn_some_effects (u t : String) (now : Int) (s : AppState)
    (rec : AppRec) (h : findOpenRecord s.records u t = some rec) :
    (appReturn u t now s).1 = some (appFine (now - rec.borrow_date)) ∧
      (appReturn u t now s).2.records = s.records.map (fun r =>
        if r.id == rec.id then
          closeAppRec r now (appFine (now - rec.borrow_date))
        else r) ∧
      (appReturn u t now s).2.catalog =
        applyStockUpdate returnStockCell t s.catalog ∧
      (appReturn u t now s).2.next_id = s.next_id := by
  refine ⟨?_, ?_, ?_, ?_⟩ <;>
    simp [appReturn, h, update_return_in_db, closeAppRec]

theorem findBookRow_books_map (s : DBState) (g : Book → Book)
    (hg : ∀ x, (g x).book_id = x.book_id) (bid : Nat) (b : Book)
    (hb : findBookRow s bid = some b) (recs : List BorrowRec)
    (n1 n2 : Nat) :
    findBookRow ⟨s.books.map g, recs, n1, n2⟩ bid = some (g b) := by
  unfold findBookRow
  simp only
  rw [find?_books_map g hg bid s.books]
  unfold findBookRow at hb
  rw [hb]
  rfl

theorem map_id_of {α : Type} (f : α → α) :
    ∀ l : List α, (∀ x ∈ l, f x = x) → l.map f = l := by
  intro l
  induction l with
  | nil => intro _; rfl
  | cons a as ih =>
    intro h
    rw [List.map_cons, h a (List.mem_cons_self _ _),
      ih (fun x hx => h x (List.mem_cons_of_mem _ hx))]

theorem isOpenFor_closeRec (uid bid : Nat) (rec : BorrowRec)
    (now fine : Int) :
    isOpenFor uid bid (closeRec rec now fine) = false := by
  simp [isOpenFor, closeRec]

/-- The closing UPDATE of `return_book_db` touches exactly the fetched
record (ids being distinct): the number of open records of the pair drops
by exactly one. -/
theorem close_filter_length (uid bid : Nat) (l : List BorrowRec)
    (rec : BorrowRec) (now fine : Int)
    (hids : (l.map BorrowRec.record_id).Nodup) (hmem : rec ∈ l)
    (hopen : isOpenFor uid bid rec = true) :
    ((l.map (fun r =>
        if r.record_id == rec.record_id then closeRec r now fine
        else r)).filter (isOpenFor uid bid)).length =
      (l.filter (isOpenFor uid bid)).length - 1 := by
  obtain ⟨l1, l2, rfl⟩ := List.append_of_mem hmem
  rw [List.map_append, List.map_cons] at hids
  rw [List.nodup_append] at hids
  obtain ⟨nd1, nd2, disj⟩ := hids
  have hrec2 : rec.record_id ∉ l2.map BorrowRec.record_id :=
    (List.nodup_cons.mp nd2).1
  have hrec1 : rec.record_id ∉ l1.map BorrowRec.record_id := by
    intro hin
    exact disj hin (List.mem_cons_self _ _)
  have hid1 : ∀ x ∈ l1, (x.record_id == rec.record_id) = false := by
    intro x hx
    simp only [beq_eq_false_iff_ne, ne_eq]
    intro he
    exact hrec1 (he ▸ List.mem_map_of_mem _ hx)
  have hid2 : ∀ x ∈ l2, (x.record_id == rec.record_id) = false := by
    intro x hx
    simp only [beq_eq_false_iff_ne, ne_eq]
    intro he
    exact hrec2 (he ▸ List.mem_map_of_mem _ hx)
  rw [List.map_append, List.map_cons]
  rw [map_id_of _ l1 (fun x hx => by rw [hid1 x hx]; rfl)]
  rw [map_id_of _ l2 (fun x hx => by rw [hid2 x hx]; rfl)]
  rw [show (if (rec.record_id == rec.record_id) = true then
      closeRec rec now fine else rec) = closeRec rec now fine from
    by simp]
  rw [List.filter_append, List.filter_append, List.filter_cons,
    List.filter_cons]
  rw [isOpenFor_closeRec, hopen]
  simp only [Bool.false_eq_true, if_false, if_true, List.length_append,
    List.length_cons]
  omega

theorem dbStep_preserves (op : DBOp) (s : DBState) (hwf : DBWF s) :
    DBWF (dbStep op s) ∧
      ∀ r ∈ s.records, r.return_date ≠ none →
        r ∈ (dbStep op s).records := by
  obtain ⟨hnd, hlt⟩ := hwf
  cases op with
  | borrow uid bid now =>
    show DBWF (borrow_book_db uid bid now s).2 ∧
      ∀ r ∈ s.records, r.return_date ≠ none →
        r ∈ (borrow_book_db uid bid now s).2.records
    cases hres : (borrow_book_db uid bid now s).1 with
    | false =>
      rw [borrow_book_db_fail_unchanged uid bid now s hres]
      exact ⟨⟨hnd, hlt⟩, fun r hr _ => hr⟩
    | true =>
      obtain ⟨hrecs, hnext, _⟩ :=
        borrow_book_db_ok_effects uid bid now s hres
      constructor
      · constructor
        · rw [hrecs, List.map_append, List.nodup_append]
          refine ⟨hnd, by simp, ?_⟩
          intro a ha hb
          simp only [List.map_cons, List.map_nil, List.mem_cons,
            List.not_mem_nil, or_false] at hb
          obtain ⟨r, hr, hra⟩ := List.mem_map.mp ha
          have := hlt r hr
          omega
        · intro r hr
          rw [hnext]
          rw [hrecs] at hr
          rcases List.mem_append.mp hr with h | h
          · have := hlt r h
            omega
          · simp only [List.mem_singleton] at h
            subst h
            show s.next_record_id < s.next_record_id + 1
            omega
      · intro r hr _
        rw [hrecs]
        exact List.mem_append_left _ hr
  | ret uid bid now =>
    show DBWF (return_book_db uid bid now s).2 ∧
      ∀ r ∈ s.records, r.return_date ≠ none →
        r ∈ (return_book_db uid bid now s).2.records
    cases hlo : latestOpen s.records uid bid with
    | none =>
      rw [return_book_db_of_none uid bid now s hlo]
      exact ⟨⟨hnd, hlt⟩, fun r hr _ => hr⟩
    | some rec =>
      rw [return_book_db_of_some uid bid now s rec hlo]
      obtain ⟨hmem, hopen, _⟩ := latestOpen_spec _ _ _ _ hlo
      have hcomp : ∀ r : BorrowRec,
          ((fun r : BorrowRec =>
            if r.record_id == rec.record_id then
              { r with return_date := some now,
                       fine := dbFine (now - rec.borrow_date) }
            else r) r).record_id = r.record_id := by
        intro r
        by_cases hx : (r.record_id == rec.record_id) = true <;> simp [hx]
      have hmap : (s.records.map (fun r =>
          if r.record_id == rec.record_id then
            { r with return_date := some now,
                     fine := dbFine (now - rec.borrow_date) }
          else r)).map BorrowRec.record_id =
            s.records.map BorrowRec.record_id := by
        rw [List.map_map]
        exact List.map_congr_left (fun x _ => hcomp x)
      constructor
      · constructor
        · show (_ : List BorrowRec).map BorrowRec.record_id |>.Nodup
          rw [hmap]
          exact hnd
        · intro r hr
          obtain ⟨x, hx, hxr⟩ := List.mem_map.mp hr
          have hb := hlt x hx
          have : r.record_id = x.record_id := by rw [← hxr, hcomp]
          show r.record_id < s.next_record_id
          omega
      · intro r hr hc
        have hropen : rec.return_date = none := by
          have := hopen
          simp only [isOpenFor, Bool.and_eq_true, beq_iff_eq] at this
          exact this.2
        have hne : (r.record_id == rec.record_id) = false := by
          simp only [beq_eq_false_iff_ne, ne_eq]
          intro he
          have : r = rec :=
            List.inj_on_of_nodup_map hnd hr hmem he
          rw [this, hropen] at hc
          exact hc rfl
        refine List.mem_map.mpr ⟨r, hr, ?_⟩
        rw [hne]
        rfl
  | updateCopies bid n =>
    exact ⟨⟨hnd, hlt⟩, fun r hr _ => hr⟩
  | addBook t a p c =>
    exact ⟨⟨hnd, hlt⟩, fun r hr _ => hr⟩

theorem dbRun_preserves_closed (ops : List DBOp) :
    ∀ s : DBState, DBWF s → ∀ r ∈ s.records, r.return_date ≠ none →
      r ∈ (dbRun ops s).records := by
  induction ops with
  | nil => intro s _ r hr _; exact hr
  | cons op rest ih =>
    intro s hwf r hr hc
    have h1 := dbStep_preserves op s hwf
    exact ih (dbStep op s) h1.1 r (h1.2 r hr hc) hc

theorem appStep_preserves (op : AppOp) (s : AppState) (hwf : AppWF s) :
    AppWF (appStep op s) ∧
      ∀ r ∈ s.records, r.return_date ≠ none →
        r ∈ (appStep op s).records := by
  obtain ⟨hnd, hlt⟩ := hwf
  cases op with
  | borrow u t now =>
    show AppWF (appBorrow u t now s).2 ∧
      ∀ r ∈ s.records, r.return_date ≠ none →
        r ∈ (appBorrow u t now s).2.records
    by_cases hres : (appBorrow u t now s).1 = BorrowResult.ok
    · obtain ⟨_, _, hrecs, hnext, _⟩ := appBorrow_ok_effects u t now s hres
      constructor
      · constructor
        · rw [hrecs, List.map_append, List.nodup_append]
          refine ⟨hnd, by simp, ?_⟩
          intro a ha hb
          simp only [List.map_cons, List.map_nil, List.mem_cons,
            List.not_mem_nil, or_false] at hb
          obtain ⟨r, hr, hra⟩ := List.mem_map.mp ha
          have := hlt r hr
          omega
        · intro r hr
          rw [hnext]
          rw [hrecs] at hr
          rcases List.mem_append.mp hr with h | h
          · have := hlt r h
            omega
          · simp only [List.mem_singleton] at h
            subst h
            show s.next_id < s.next_id + 1
            omega
      · intro r hr _
        rw [hrecs]
        exact List.mem_append_left _ hr
    · rw [appBorrow_fail_unchanged u t now s hres]
      exact ⟨⟨hnd, hlt⟩, fun r hr _ => hr⟩
  | ret u t now =>
    show AppWF (appReturn u t now s).2 ∧
      ∀ r ∈ s.records, r.return_date ≠ none →
        r ∈ (appReturn u t now s).2.records
    cases hfo : findOpenRecord s.records u t with
    | none =>
      have hunch : appReturn u t now s = (none, s) := by
        simp [appReturn, hfo]
      rw [hunch]
      exact ⟨⟨hnd, hlt⟩, fun r hr _ => hr⟩
    | some rec =>
      obtain ⟨hmem, hropen, _⟩ := findOpenRecord_spec _ _ _ _ hfo
      obtain ⟨_, hrecs, _, hnext⟩ :=
        appReturn_some_effects u t now s rec hfo
      have hcomp : ∀ r : AppRec,
          ((fun r : AppRec =>
            if r.id == rec.id then
              closeAppRec r now (appFine (now - rec.borrow_date))
            else r) r).id = r.id := by
        intro r
        by_cases hx : (r.id == rec.id) = true <;>
          simp [hx, closeAppRec]
      have hmap : ((appReturn u t now s).2.records).map AppRec.id =
          s.records.map AppRec.id := by
        rw [hrecs, List.map_map]
        exact List.map_congr_left (fun x _ => hcomp x)
      constructor
      · constructor
        · rw [hmap]
          exact hnd
        · intro r hr
          rw [hrecs] at hr
          obtain ⟨x, hx, hxr⟩ := List.mem_map.mp hr
          have hb := hlt x hx
          have : r.id = x.id := by rw [← hxr, hcomp]
          rw [hnext]
          omega
      · intro r hr hc
        have hne : (r.id == rec.id) = false := by
          simp only [beq_eq_false_iff_ne, ne_eq]
          intro he
          have : r = rec :=
            List.inj_on_of_nodup_map hnd hr hmem he
          rw [this, hropen] at hc
          exact hc rfl
        rw [hrecs]
        refine List.mem_map.mpr ⟨r, hr, ?_⟩
        rw [hne]
        rfl

theorem appRun_preserves_closed (ops : List AppOp) :
    ∀ s : AppState, AppWF s → ∀ r ∈ s.records, r.return_date ≠ none →
      r ∈ (appRun ops s).records := by
  induction ops with
  | nil => intro s _ r hr _; exact hr
  | cons op rest ih =>
    intro s hwf r hr hc
    have h1 := appStep_preserves op s hwf
    exact ih (appStep op s) h1.1 r (h1.2 r hr hc) hc

/-- C2 witness: a concrete duplicate borrow (case-insensitive borrower
match) is rejected with no mutation. -/
theorem C2_witness :
    appBorrow "ALICE" "Dune" 3
        ⟨[⟨0, "alice", "Dune", 0, none, some 7, 0⟩],
          [⟨"Dune", some 1⟩], 1⟩ =
      (BorrowResult.alreadyBorrowed,
        ⟨[⟨0, "alice", "Dune", 0, none, some 7, 0⟩],
          [⟨"Dune", some 1⟩], 1⟩) :=
  C2_amended.1 "ALICE" "Dune" 3
    ⟨[⟨0, "alice", "Dune", 0, none, some 7, 0⟩], [⟨"Dune", some 1⟩], 1⟩
    (by decide) (by decide)

/-- C6 amended: after every successful return the record's
return_timestamp is set, its fine equals `max(0, days - 7) * RATE`, and
the closed record is never mutated again by any later operation (in
either backend, under the primary-key well-formedness the AUTOINCREMENT
column maintains); `get_available` increases by exactly 1 in the SQL
backend whenever the book row exists, and in the spreadsheet flow
whenever the stock lookup hits the row exactly and its cell holds a
non-negative number — the counterexample shows the increment is lost when
the raw stored title differs from the loan's title. -/
theorem C6_amended :
    (∀ (uid bid : Nat) (now : Int) (s : DBState) (rec : BorrowRec)
        (b : Book),
      latestOpen s.records uid bid = some rec →
      findBookRow s bid = some b →
        (return_book_db uid bid now s).1 =
            some (dbFine (now - rec.borrow_date)) ∧
          closeRec rec now (dbFine (now - rec.borrow_date)) ∈
            (return_book_db uid bid now s).2.records ∧
          dbGetAvailable (return_book_db uid bid now s).2 bid =
            dbGetAvailable s bid + 1) ∧
    (∀ (u t : String) (now : Int) (s : AppState) (rec : AppRec) (i : Nat)
        (r : SheetRow) (n : Int),
      findOpenRecord s.records u t = some rec →
      find_book_in_data_files t s.catalog = some i →
      s.catalog[i]? = some r → r.title = t → pyStrip t = t → ¬ t = "" →
      r.copies_cell = some n → 0 ≤ n →
        (appReturn u t now s).1 =
            some (appFine (now - rec.borrow_date)) ∧
          closeAppRec rec now (appFine (now - rec.borrow_date)) ∈
            (appReturn u t now s).2.records ∧
          appGetAvailable (appReturn u t now s).2.catalog t =
            appGetAvailable s.catalog t + 1) ∧
    (∀ (ops : List DBOp) (s : DBState), DBWF s →
      ∀ r ∈ s.records, r.return_date ≠ none →
        r ∈ (dbRun ops s).records) ∧
    (∀ (ops : List AppOp) (s : AppState), AppWF s →
      ∀ r ∈ s.records, r.return_date ≠ none →
        r ∈ (appRun ops s).records) := by
  refine ⟨?_, ?_, dbRun_preserves_closed, appRun_preserves_closed⟩
  · intro uid bid now s rec b hlo hb
    refine ⟨?_, ?_,
      return_book_db_available_inc uid bid now s rec hlo b hb⟩
    · rw [return_book_db_of_some uid bid now s rec hlo]
    · rw [return_book_db_of_some uid bid now s rec hlo]
      have hmem : rec ∈ s.records := (latestOpen_spec _ _ _ _ hlo).1
      refine List.mem_map.mpr ⟨rec, hmem, ?_⟩
      simp [closeRec]
  · intro u t now s rec i r n hfo hf hg hrt htt hte hc hn
    obtain ⟨h1, h2, h3, _⟩ := appReturn_some_effects u t now s rec hfo
    refine ⟨h1, ?_, ?_⟩
    · rw [h2]
      have hmem : rec ∈ s.records := (findOpenRecord_spec _ _ _ _ hfo).1
      refine List.mem_map.mpr ⟨rec, hmem, ?_⟩
      simp [closeAppRec]
    · rw [h3]
      exact return_available_inc t s.catalog i r n hf hg hrt htt hte hc hn

/-- C6 witness: a concrete successful return with exact title match
closes the record, charges `max(0, 8 - 7) * 1 = 1`, and raises the
displayed count by one. -/
theorem C6_witness :
    (appReturn "alice" "X" 8
        ⟨[⟨0, "alice", "X", 0, none, some 7, 0⟩], [⟨"X", some 0⟩], 1⟩).1 =
        some (appFine (8 - 0)) ∧
      closeAppRec ⟨0, "alice", "X", 0, none, some 7, 0⟩ 8
          (appFine (8 - 0)) ∈
        (appReturn "alice" "X" 8
          ⟨[⟨0, "alice", "X", 0, none, some 7, 0⟩],
            [⟨"X", some 0⟩], 1⟩).2.records ∧
      appGetAvailable
          (appReturn "alice" "X" 8
            ⟨[⟨0, "alice", "X", 0, none, some 7, 0⟩],
              [⟨"X", some 0⟩], 1⟩).2.catalog "X" =
        appGetAvailable [⟨"X", some 0⟩] "X" + 1 :=
  C6_amended.2.1 "alice" "X" 8
    ⟨[⟨0, "alice", "X", 0, none, some 7, 0⟩], [⟨"X", some 0⟩], 1⟩
    ⟨0, "alice", "X", 0, none, some 7, 0⟩ 0 ⟨"X", some 0⟩ 0
    (by decide) (by decide) (by decide) (by decide) (by decide)
    (by decide) (by decide) (by decide)

/-- C8: in the SQL backend, for an available book and a borrower with no
open loan of it, a borrow immediately followed by a return at the same
timestamp succeeds, charges fine 0, and restores the available count to
its pre-borrow value. -/
theorem C8_confirmed (uid bid : Nat) (now : Int) (s : DBState)
    (hav : 0 < dbGetAvailable s bid)
    (hnone : s.records.filter (isOpenFor uid bid) = []) :
    (borrow_book_db uid bid now s).1 = true ∧
      (return_book_db uid bid now (borrow_book_db uid bid now s).2).1 =
        some 0 ∧
      dbGetAvailable
          (return_book_db uid bid now
            (borrow_book_db uid bid now s).2).2 bid =
        dbGetAvailable s bid := by
  cases hfb : findBookRow s bid with
  | none =>
    rw [dbGetAvailable_of_no_book s bid hfb] at hav
    omega
  | some b =>
    have hbc : 0 < b.copies := by
      rw [dbGetAvailable_of_find s bid b hfb] at hav
      exact hav
    have hok : (borrow_book_db uid bid now s).1 = true := by
      rw [borrow_book_db_of_pos uid bid now s b hfb hbc]
    obtain ⟨hrecs, _, hdec⟩ := borrow_book_db_ok_effects uid bid now s hok
    have hopen_new :
        isOpenFor uid bid ⟨s.next_record_id, uid, bid, now, none, 0⟩ =
          true := by
      simp [isOpenFor]
    have hfil : (borrow_book_db uid bid now s).2.records.filter
        (isOpenFor uid bid) =
          [⟨s.next_record_id, uid, bid, now, none, 0⟩] := by
      rw [hrecs, List.filter_append, hnone]
      simp [hopen_new]
    have hlo : latestOpen (borrow_book_db uid bid now s).2.records uid
        bid = some ⟨s.next_record_id, uid, bid, now, none, 0⟩ := by
      unfold latestOpen
      rw [hfil]
      rfl
    have hb1 : findBookRow (borrow_book_db uid bid now s).2 bid =
        some { b with copies := b.copies - 1 } := by
      rw [borrow_book_db_of_pos uid bid now s b hfb hbc]
      have hg : ∀ x : Book,
          ((fun x : Book =>
            if x.book_id == bid then { x with copies := x.copies - 1 }
            else x) x).book_id = x.book_id := by
        intro x
        by_cases hx : (x.book_id == bid) = true <;> simp [hx]
      refine Eq.trans (findBookRow_books_map s _ hg bid b hfb _ _ _) ?_
      have hbid : b.book_id = bid := (findBookRow_spec s bid b hfb).2
      simp [hbid]
    refine ⟨hok, ?_, ?_⟩
    · rw [return_book_db_of_some _ _ _ _ _ hlo]
      show some (dbFine (now - now)) = some 0
      rw [sub_self]
      decide
    · have hinc := return_book_db_available_inc uid bid now
        (borrow_book_db uid bid now s).2 _ hlo _ hb1
      rw [hinc, hdec]
      ring

/-- C8 witness: round trip on a concrete two-copy store. -/
theorem C8_witness :
    (borrow_book_db 5 1 3 ⟨[⟨1, "B", "a", 0, 2⟩], [], 0, 2⟩).1 = true ∧
      (return_book_db 5 1 3
          (borrow_book_db 5 1 3 ⟨[⟨1, "B", "a", 0, 2⟩], [], 0, 2⟩).2).1 =
        some 0 ∧
      dbGetAvailable
          (return_book_db 5 1 3
            (borrow_book_db 5 1 3
              ⟨[⟨1, "B", "a", 0, 2⟩], [], 0, 2⟩).2).2 1 =
        dbGetAvailable ⟨[⟨1, "B", "a", 0, 2⟩], [], 0, 2⟩ 1 :=
  C8_confirmed 5 1 3 ⟨[⟨1, "B", "a", 0, 2⟩], [], 0, 2⟩ (by decide)
    (by decide)

/-- C9: when several open loans exist for the same (user_id, book_id)
pair, `return_book_db` closes exactly one — one with the latest
borrow_date — sets its fine, increments the book's copies by 1, and
leaves every other open loan of the pair present (and, having a different
record id, untouched by the UPDATE). -/
theorem C9_confirmed (uid bid : Nat) (now : Int) (s : DBState)
    (rec : BorrowRec) (b : Book)
    (hids : (s.records.map BorrowRec.record_id).Nodup)
    (hsel : latestOpen s.records uid bid = some rec)
    (h2 : 2 ≤ dbOpenPairCount s uid bid)
    (hb : findBookRow s bid = some b) :
    (return_book_db uid bid now s).1 =
        some (dbFine (now - rec.borrow_date)) ∧
      isOpenFor uid bid rec = true ∧
      (∀ x ∈ s.records, isOpenFor uid bid x = true →
        x.borrow_date ≤ rec.borrow_date) ∧
      closeRec rec now (dbFine (now - rec.borrow_date)) ∈
        (return_book_db uid bid now s).2.records ∧
      (∀ x ∈ s.records, isOpenFor uid bid x = true →
        x.record_id ≠ rec.record_id →
          x ∈ (return_book_db uid bid now s).2.records) ∧
      dbOpenPairCount (return_book_db uid bid now s).2 uid bid =
        dbOpenPairCount s uid bid - 1 ∧
      dbGetAvailable (return_book_db uid bid now s).2 bid =
        dbGetAvailable s bid + 1 := by
  obtain ⟨hmem, hopen, hmax⟩ := latestOpen_spec _ _ _ _ hsel
  refine ⟨?_, hopen, hmax, ?_, ?_, ?_,
    return_book_db_available_inc uid bid now s rec hsel b hb⟩
  · rw [return_book_db_of_some uid bid now s rec hsel]
  · rw [return_book_db_of_some uid bid now s rec hsel]
    refine List.mem_map.mpr ⟨rec, hmem, ?_⟩
    simp [closeRec]
  · intro x hx _ hne
    rw [return_book_db_of_some uid bid now s rec hsel]
    refine List.mem_map.mpr ⟨x, hx, ?_⟩
    rw [show (x.record_id == rec.record_id) = false from by
      simpa using hne]
    rfl
  · rw [return_book_db_of_some uid bid now s rec hsel]
    exact close_filter_length uid bid s.records rec now
      (dbFine (now - rec.borrow_date)) hids hmem hopen

/-- C9 witness: two open loans of (user 5, book 1); returning closes the
day-3 loan (0 open copies stored, so the shelf count becomes 1), leaves
the day-0 loan open, and charges `max(0, 9 - 7) = 2`. -/
theorem C9_witness :
    (return_book_db 5 1 12
        ⟨[⟨1, "B", "a", 0, 0⟩],
          [⟨0, 5, 1, 0, none, 0⟩, ⟨1, 5, 1, 3, none, 0⟩], 2, 2⟩).1 =
        some (dbFine (12 - 3)) ∧
      dbOpenPairCount
          (return_book_db 5 1 12
            ⟨[⟨1, "B", "a", 0, 0⟩],
              [⟨0, 5, 1, 0, none, 0⟩, ⟨1, 5, 1, 3, none, 0⟩],
              2, 2⟩).2 5 1 =
        dbOpenPairCount
          ⟨[⟨1, "B", "a", 0, 0⟩],
            [⟨0, 5, 1, 0, none, 0⟩, ⟨1, 5, 1, 3, none, 0⟩], 2, 2⟩ 5 1 -
          1 ∧
      dbGetAvailable
          (return_book_db 5 1 12
            ⟨[⟨1, "B", "a", 0, 0⟩],
              [⟨0, 5, 1, 0, none, 0⟩, ⟨1, 5, 1, 3, none, 0⟩],
              2, 2⟩).2 1 =
        dbGetAvailable
          ⟨[⟨1, "B", "a", 0, 0⟩],
            [⟨0, 5, 1, 0, none, 0⟩, ⟨1, 5, 1, 3, none, 0⟩], 2, 2⟩ 1 + 1 :=
  ⟨(C9_confirmed 5 1 12 _ ⟨1, 5, 1, 3, none, 0⟩ ⟨1, "B", "a", 0, 0⟩
      (by decide) (by decide) (by decide) (by decide)).1,
   (C9_confirmed 5 1 12 _ ⟨1, 5, 1, 3, none, 0⟩ ⟨1, "B", "a", 0, 0⟩
      (by decide) (by decide) (by decide) (by decide)).2.2.2.2.2.1,
   (C9_confirmed 5 1 12 _ ⟨1, 5, 1, 3, none, 0⟩ ⟨1, "B", "a", 0, 0⟩
      (by decide) (by decide) (by decide) (by decide)).2.2.2.2.2.2⟩

end SmartLib
